import Mathlib

/-!
Verification of the strategy-scaler core (`calculator.py`) against its
specification.  The calculation engine is embedded shallowly: dates are
modelled as integers (days since an epoch, Monday-start weeks following the
library's weekly-period convention), P&L values and balances as rationals,
and the fallible `calculate_scaling` entry point as an `Except` value.
Pandas reductions that yield NaN on an empty series (`Series.min`) are
modelled as `Option`-valued functions returning `none` on `[]`.
-/

instance {ε α : Type} [DecidableEq ε] [DecidableEq α] : DecidableEq (Except ε α) := fun a b =>
  match a, b with
  | .ok x, .ok y =>
      if h : x = y then .isTrue (by rw [h]) else .isFalse (fun hh => h (Except.ok.inj hh))
  | .error x, .error y =>
      if h : x = y then .isTrue (by rw [h]) else .isFalse (fun hh => h (Except.error.inj hh))
  | .ok _, .error _ => .isFalse (fun hh => Except.noConfusion hh)
  | .error _, .ok _ => .isFalse (fun hh => Except.noConfusion hh)

/-- Error taxonomy of the spec: `InvalidInput` (empty/unsorted series) and
`DegenerateRisk` (computed max loss is zero).  The source raises plain
`ValueError`s; the only one raised inside `calculate_scaling` corresponds to
`degenerateRisk`. -/
inductive ScalingError where
  | invalidInput
  | degenerateRisk
deriving DecidableEq, Repr

/-- One row of the scaled result frame: the input columns `Date`, `PnL`
plus the derived columns `StartingBR`, `Position_Size`, `Scaled_PnL`,
`EndingBR`, `Cumulative_PnL` of `calculate_scaling`. -/
structure ScaledRow where
  date : ℤ
  pnl : ℚ
  startingBR : ℚ
  positionSize : ℤ
  scaledPnl : ℚ
  endingBR : ℚ
  cumulativePnl : ℚ
deriving DecidableEq, Repr

/-- `pandas.Series.min`: `none` on an empty series (pandas yields NaN there),
otherwise the least element. -/
def seriesMin {α : Type} [LinearOrder α] : List α → Option α
  | [] => none
  | p :: rest =>
      some (match seriesMin rest with
            | none => p
            | some m => min p m)

/-- `pandas.Series.max`: `none` on an empty series, otherwise the greatest
element. -/
def seriesMax {α : Type} [LinearOrder α] : List α → Option α
  | [] => none
  | p :: rest =>
      some (match seriesMax rest with
            | none => p
            | some m => max p m)

/-- The loop body of `calculate_scaling` (lines 120-139 of `calculator.py`):
one row per input day, threading `current_capital`.  `maxLoss`, `risk` and
`startCap` are the per-run constants; `cap` is the evolving capital. -/
def scalingLoop (maxLoss risk startCap : ℚ) : ℚ → List (ℤ × ℚ) → List ScaledRow
  | _, [] => []
  | cap, (d, p) :: rest =>
      let size : ℤ := ⌊(cap * risk) / maxLoss⌋
      let sp : ℚ := p * (size : ℚ)
      let newCap : ℚ := cap + sp
      { date := d, pnl := p, startingBR := cap, positionSize := size,
        scaledPnl := sp, endingBR := newCap,
        cumulativePnl := newCap - startCap } :: scalingLoop maxLoss risk startCap newCap rest

/-- `StrategyCalculator.calculate_scaling` as a pure function of the data
`(Date, PnL)` and the two parameters.  `max_loss = abs(data.min())`; on an
empty series the pandas min is NaN, `NaN == 0` is false, and the loop body
never runs, so the source returns an empty result frame without raising. -/
def calculate_scaling (data : List (ℤ × ℚ)) (startingCapital riskPercentage : ℚ) :
    Except ScalingError (List ScaledRow) :=
  match seriesMin (data.map Prod.snd) with
  | none => Except.ok []
  | some m =>
      if |m| = 0 then Except.error ScalingError.degenerateRisk
      else Except.ok (scalingLoop |m| riskPercentage startingCapital startingCapital data)

/-- The run constant `self.max_loss = abs(data.min())` (line 107);
`none` models the NaN obtained from an empty series. -/
def maxLossOf (data : List (ℤ × ℚ)) : Option ℚ :=
  (seriesMin (data.map Prod.snd)).map (fun m => |m|)

/-- `Series.cumsum` starting from an accumulator. -/
def cumsumFrom (acc : ℚ) : List ℚ → List ℚ
  | [] => []
  | p :: rest => (acc + p) :: cumsumFrom (acc + p) rest

/-- `pandas.Series.cumsum`: running partial sums, one per element. -/
def cumsum (l : List ℚ) : List ℚ := cumsumFrom 0 l

/-- Tail of `expanding().max()` given the maximum `m` of the elements seen
so far. -/
def runningMaxFrom (m : ℚ) : List ℚ → List ℚ
  | [] => []
  | p :: rest => max m p :: runningMaxFrom (max m p) rest

/-- `Series.expanding().max()`: running maximum up to and including the
current element. -/
def runningMax : List ℚ → List ℚ
  | [] => []
  | p :: rest => p :: runningMaxFrom p rest

/-- Drawdown series of a curve: the curve minus its running maximum
(lines 160 and 176 of `calculator.py`). -/
def drawdownOf (curve : List ℚ) : List ℚ :=
  List.zipWith (fun a b => a - b) curve (runningMax curve)

/-- `original_max_drawdown` (lines 157-161): minimum of
`cumsum(PnL) - expanding_max(cumsum(PnL))`; `none` models the NaN that the
`min` of an empty series yields. -/
def original_max_drawdown (pnl : List ℚ) : Option ℚ :=
  seriesMin (drawdownOf (cumsum pnl))

/-- `scaled_max_drawdown` (lines 174-177): minimum of
`EndingBR - expanding_max(EndingBR)`, on the balance curve directly. -/
def scaled_max_drawdown (endingBR : List ℚ) : Option ℚ :=
  seriesMin (drawdownOf endingBR)

/-- Start (Monday) of the weekly period containing day `d`, for dates
modelled as day numbers with day 0 a Thursday (the 1970-01-01 epoch).  This
is the `to_period('W')` bucket of line 235, identified with its
`start_time` (line 239), which determines it injectively. -/
def weekStart (d : ℤ) : ℤ := d - (d + 3) % 7

/-- The ascending list of distinct week buckets occurring among `records`
(`groupby('Week')` sorts its keys and emits each once). -/
def weekKeys (records : List (ℤ × ℚ)) : List ℤ :=
  ((records.map (fun r => weekStart r.1)).insertionSort (· ≤ ·)).dedup

/-- `df.groupby('Week')[pnl_col].sum()` with the `Week_Start` column
(lines 234-241): one `(week_start, sum of values)` row per distinct week
bucket, in ascending week order. -/
def groupByWeekSum (records : List (ℤ × ℚ)) : List (ℤ × ℚ) :=
  (weekKeys records).map
    (fun k => (k, ((records.filter (fun r => weekStart r.1 == k)).map Prod.snd).sum))

/-- The mutable attributes of a `StrategyCalculator` instance.  `none`
models Python `None` (fields start as `None` in `__init__`); for `maxLoss`
it also models the NaN produced by `abs(min)` of an empty series. -/
structure CalcState where
  originalData : Option (List (ℤ × ℚ))
  scaledData : Option (List ScaledRow)
  maxLoss : Option ℚ
  startingCapital : Option ℚ
  riskPercentage : Option ℚ
deriving DecidableEq, Repr

/-- `StrategyCalculator.__init__`: every attribute is `None`. -/
def initState : CalcState :=
  { originalData := none, scaledData := none, maxLoss := none,
    startingCapital := none, riskPercentage := none }

/-- `calculate_scaling` as the state transition it performs on `self`:
lines 102-107 assign `starting_capital`, `risk_percentage`,
`original_data` and `max_loss` BEFORE the degenerate-risk check at line
109, so they are updated even when the call raises; `scaled_data` is only
assigned on success (line 141). -/
def runScaling (s : CalcState) (data : List (ℤ × ℚ)) (startingCapital riskPercentage : ℚ) :
    CalcState × Except ScalingError (List ScaledRow) :=
  let s1 : CalcState :=
    { s with startingCapital := some startingCapital,
             riskPercentage := some riskPercentage,
             originalData := some data,
             maxLoss := maxLossOf data }
  match calculate_scaling data startingCapital riskPercentage with
  | Except.error e => (s1, Except.error e)
  | Except.ok res => ({ s1 with scaledData := some res }, Except.ok res)

/-- The fields of the report dictionary built by
`calculate_performance_metrics` that the spec's claims refer to.  `Option`
fields model pandas NaN (empty-series reductions) or a positional access
on an empty frame; the remaining report entries (`total_return_pct`,
`max_drawdown_pct`) are further arithmetic on these same values and are
omitted. -/
structure MetricsReport where
  originalTotalPnl : ℚ
  originalWinRate : ℚ
  originalAvgWin : ℚ
  originalAvgLoss : ℚ
  originalMaxDrawdown : Option ℚ
  originalTotalTrades : ℕ
  scaledTotalPnl : ℚ
  scaledFinalCapital : Option ℚ
  scaledWinRate : ℚ
  scaledMaxDrawdown : Option ℚ
  scaledTotalTrades : ℕ
  maxLossUsed : Option ℚ
  riskPercentageUsed : Option ℚ
  maxPositionSize : Option ℤ
  minPositionSize : Option ℤ
deriving DecidableEq, Repr

/-- `StrategyCalculator.calculate_performance_metrics` (lines 144-213):
returns `{}` (here `none`) when either `original_data` or `scaled_data` is
`None`, otherwise the report computed from whatever those attributes
currently hold. -/
def calculate_performance_metrics (s : CalcState) : Option MetricsReport :=
  match s.originalData, s.scaledData with
  | some od, some sd =>
      let opnl : List ℚ := od.map Prod.snd
      let spnl : List ℚ := sd.map ScaledRow.scaledPnl
      let owins : ℕ := opnl.countP (fun p => 0 < p)
      let olosses : ℕ := opnl.countP (fun p => p < 0)
      let swins : ℕ := spnl.countP (fun p => 0 < p)
      some
        { originalTotalPnl := opnl.sum
          originalWinRate := if 0 < od.length then (owins : ℚ) / (od.length : ℚ) else 0
          originalAvgWin :=
            if 0 < owins then (opnl.filter (fun p => 0 < p)).sum / (owins : ℚ) else 0
          originalAvgLoss :=
            if 0 < olosses then (opnl.filter (fun p => p < 0)).sum / (olosses : ℚ) else 0
          originalMaxDrawdown := original_max_drawdown opnl
          originalTotalTrades := od.length
          scaledTotalPnl := spnl.sum
          scaledFinalCapital := (sd.map ScaledRow.endingBR).getLast?
          scaledWinRate := if 0 < sd.length then (swins : ℚ) / (sd.length : ℚ) else 0
          scaledMaxDrawdown := scaled_max_drawdown (sd.map ScaledRow.endingBR)
          scaledTotalTrades := sd.length
          maxLossUsed := s.maxLoss
          riskPercentageUsed := s.riskPercentage
          maxPositionSize := seriesMax (sd.map ScaledRow.positionSize)
          minPositionSize := seriesMin (sd.map ScaledRow.positionSize) }
  | _, _ => none

/-- `StrategyCalculator.get_weekly_data` (lines 215-241): dispatch on
`data_type` and on whether the requested attribute is `None`; every
non-matching combination returns an empty frame. -/
def get_weekly_data (s : CalcState) (dataType : String) : List (ℤ × ℚ) :=
  match dataType, s.originalData, s.scaledData with
  | "original", some od, _ => groupByWeekSum od
  | "scaled", _, some sd => groupByWeekSum (sd.map (fun r => (r.date, r.scaledPnl)))
  | _, _, _ => []

/-- Every row of the scaling loop satisfies the per-day equations of the
recurrence (lines 126-139). -/
theorem scalingLoop_mem_spec (maxLoss risk startCap : ℚ) (data : List (ℤ × ℚ)) :
    ∀ (cap : ℚ), ∀ row ∈ scalingLoop maxLoss risk startCap cap data,
      row.positionSize = ⌊(row.startingBR * risk) / maxLoss⌋ ∧
      row.scaledPnl = row.pnl * (row.positionSize : ℚ) ∧
      row.endingBR = row.startingBR + row.scaledPnl ∧
      row.cumulativePnl = row.endingBR - startCap := by
  induction data with
  | nil => intro cap row hrow; simp [scalingLoop] at hrow
  | cons hd tl ih =>
      obtain ⟨d, p⟩ := hd
      intro cap row hrow
      rw [scalingLoop] at hrow
      rcases List.mem_cons.mp hrow with h | h
      · subst h
        exact ⟨rfl, rfl, rfl, rfl⟩
      · exact ih _ row h

/-- The loop reproduces the input `Date` and `PnL` columns in order. -/
theorem scalingLoop_map_datePnl (maxLoss risk startCap : ℚ) (data : List (ℤ × ℚ)) :
    ∀ cap : ℚ,
      (scalingLoop maxLoss risk startCap cap data).map (fun row => (row.date, row.pnl)) = data := by
  induction data with
  | nil => intro cap; simp [scalingLoop]
  | cons hd tl ih =>
      obtain ⟨d, p⟩ := hd
      intro cap
      simp only [scalingLoop, List.map_cons, ih]

/-- The loop output has one row per input day. -/
theorem scalingLoop_length (maxLoss risk startCap : ℚ) (data : List (ℤ × ℚ)) (cap : ℚ) :
    (scalingLoop maxLoss risk startCap cap data).length = data.length := by
  have h := congrArg List.length (scalingLoop_map_datePnl maxLoss risk startCap data cap)
  simpa using h

/-- The head of the loop output starts from the capital the loop was
entered with. -/
theorem scalingLoop_headStart (maxLoss risk startCap : ℚ) (data : List (ℤ × ℚ)) (cap : ℚ) :
    ∀ y, (scalingLoop maxLoss risk startCap cap data).head? = some y → y.startingBR = cap := by
  cases data with
  | nil => intro y hy; simp [scalingLoop] at hy
  | cons hd tl =>
      obtain ⟨d, p⟩ := hd
      intro y hy
      simp only [scalingLoop, List.head?_cons, Option.some.injEq] at hy
      rw [← hy]

/-- The first row of the loop starts from the capital the loop was entered
with. -/
theorem scalingLoop_get_zero (maxLoss risk startCap : ℚ) (data : List (ℤ × ℚ)) (cap : ℚ)
    (h : 0 < (scalingLoop maxLoss risk startCap cap data).length) :
    ((scalingLoop maxLoss risk startCap cap data).get ⟨0, h⟩).startingBR = cap := by
  cases data with
  | nil => simp [scalingLoop] at h
  | cons hd tl => obtain ⟨d, p⟩ := hd; rfl

/-- Chain continuity of the loop output, as a `Chain'`. -/
theorem scalingLoop_chain (maxLoss risk startCap : ℚ) (data : List (ℤ × ℚ)) :
    ∀ cap : ℚ,
      List.Chain' (fun a b => b.startingBR = a.endingBR)
        (scalingLoop maxLoss risk startCap cap data) := by
  induction data with
  | nil => intro cap; simp [scalingLoop]
  | cons hd tl ih =>
      obtain ⟨d, p⟩ := hd
      intro cap
      simp only [scalingLoop]
      refine List.chain'_cons'.mpr ⟨fun y hy => ?_, ih _⟩
      exact scalingLoop_headStart maxLoss risk startCap tl _ y hy

/-- The last row's ending balance is the entering capital plus the sum of
the scaled P&L column. -/
theorem scalingLoop_last (maxLoss risk startCap : ℚ) (data : List (ℤ × ℚ)) :
    ∀ (cap : ℚ) (h : scalingLoop maxLoss risk startCap cap data ≠ []),
      ((scalingLoop maxLoss risk startCap cap data).getLast h).endingBR =
        cap + ((scalingLoop maxLoss risk startCap cap data).map ScaledRow.scaledPnl).sum := by
  induction data with
  | nil => intro cap h; simp [scalingLoop] at h
  | cons hd tl ih =>
      obtain ⟨d, p⟩ := hd
      intro cap h
      by_cases htl : scalingLoop maxLoss risk startCap
          (cap + p * ((⌊(cap * risk) / maxLoss⌋ : ℤ) : ℚ)) tl = []
      · simp [scalingLoop, htl]
      · have h2 : scalingLoop maxLoss risk startCap cap ((d, p) :: tl) =
            { date := d, pnl := p, startingBR := cap,
              positionSize := ⌊(cap * risk) / maxLoss⌋,
              scaledPnl := p * ((⌊(cap * risk) / maxLoss⌋ : ℤ) : ℚ),
              endingBR := cap + p * ((⌊(cap * risk) / maxLoss⌋ : ℤ) : ℚ),
              cumulativePnl := cap + p * ((⌊(cap * risk) / maxLoss⌋ : ℤ) : ℚ) - startCap } ::
              scalingLoop maxLoss risk startCap
                (cap + p * ((⌊(cap * risk) / maxLoss⌋ : ℤ) : ℚ)) tl := by
          simp only [scalingLoop]
        rw [List.getLast_congr h (h2 ▸ h) h2, List.getLast_cons htl, ih _ htl, h2]
        simp only [List.map_cons, List.sum_cons]
        ring

/-- The series minimum is `none` exactly on the empty series. -/
theorem seriesMin_eq_none {α : Type} [LinearOrder α] (l : List α) :
    seriesMin l = none ↔ l = [] := by
  cases l <;> simp [seriesMin]

/-- A non-empty series has a minimum. -/
theorem seriesMin_of_ne_nil {α : Type} [LinearOrder α] (l : List α) (h : l ≠ []) :
    ∃ m, seriesMin l = some m := by
  cases l with
  | nil => exact absurd rfl h
  | cons p rest => exact ⟨_, rfl⟩

/-- The series minimum is an element of the series. -/
theorem seriesMin_mem {α : Type} [LinearOrder α] :
    ∀ (l : List α) (m : α), seriesMin l = some m → m ∈ l := by
  intro l
  induction l with
  | nil => intro m h; simp [seriesMin] at h
  | cons p rest ih =>
      intro m h
      cases hr : seriesMin rest with
      | none =>
          simp only [seriesMin, hr, Option.some.injEq] at h
          exact h ▸ List.mem_cons_self p rest
      | some m' =>
          simp only [seriesMin, hr, Option.some.injEq] at h
          rcases le_total p m' with hle | hle
          · rw [min_eq_left hle] at h
            exact h ▸ List.mem_cons_self p rest
          · rw [min_eq_right hle] at h
            exact List.mem_cons_of_mem p (h ▸ ih m' hr)

/-- The series minimum is a lower bound. -/
theorem seriesMin_le {α : Type} [LinearOrder α] :
    ∀ (l : List α) (m : α), seriesMin l = some m → ∀ x ∈ l, m ≤ x := by
  intro l
  induction l with
  | nil => intro m h; simp [seriesMin] at h
  | cons p rest ih =>
      intro m h x hx
      cases hr : seriesMin rest with
      | none =>
          rw [(seriesMin_eq_none rest).mp hr] at hx
          simp only [seriesMin, hr, Option.some.injEq] at h
          rcases List.mem_singleton.mp hx with rfl
          exact h.ge
      | some m' =>
          simp only [seriesMin, hr, Option.some.injEq] at h
          rcases List.mem_cons.mp hx with hx1 | hx'
          · rw [hx1]; exact h ▸ min_le_left _ _
          · exact le_trans (h ▸ min_le_right _ _) (ih m' hr x hx')

/-- If every element of a non-empty series is zero, its minimum is zero. -/
theorem seriesMin_all_zero :
    ∀ l : List ℚ, l ≠ [] → (∀ x ∈ l, x = 0) → seriesMin l = some 0 := by
  intro l
  induction l with
  | nil => intro h; exact absurd rfl h
  | cons p rest ih =>
      intro _ hall
      have hp : p = 0 := hall p (List.mem_cons_self p rest)
      cases hr : seriesMin rest with
      | none =>
          simp only [seriesMin, hr, hp]
      | some m' =>
          have hm' : m' = 0 := hall m' (List.mem_cons_of_mem p (seriesMin_mem rest m' hr))
          have h0 : rest ≠ [] := by
            intro hnil; rw [hnil] at hr; simp [seriesMin] at hr
          have := ih h0 (fun x hx => hall x (List.mem_cons_of_mem p hx))
          simp only [seriesMin, hr, hp, hm']
          simp

/-- `runningMaxFrom` dominates the series it runs over, pointwise. -/
theorem zip_runningMaxFrom_nonpos :
    ∀ (l : List ℚ) (m : ℚ),
      ∀ x ∈ List.zipWith (fun a b => a - b) l (runningMaxFrom m l), x ≤ 0 := by
  intro l
  induction l with
  | nil => intro m x hx; simp [runningMaxFrom] at hx
  | cons p rest ih =>
      intro m x hx
      simp only [runningMaxFrom, List.zipWith_cons_cons, List.mem_cons] at hx
      rcases hx with rfl | hx'
      · simp [le_max_right]
      · exact ih (max m p) x hx'

/-- Every entry of a drawdown series is non-positive. -/
theorem drawdownOf_nonpos (l : List ℚ) : ∀ x ∈ drawdownOf l, x ≤ 0 := by
  cases l with
  | nil => intro x hx; simp [drawdownOf, runningMax] at hx
  | cons p rest =>
      intro x hx
      simp only [drawdownOf, runningMax, List.zipWith_cons_cons, List.mem_cons] at hx
      rcases hx with rfl | hx'
      · simp
      · exact zip_runningMaxFrom_nonpos rest p x hx'

/-- `runningMaxFrom` has the length of its input. -/
theorem runningMaxFrom_length : ∀ (l : List ℚ) (m : ℚ), (runningMaxFrom m l).length = l.length := by
  intro l
  induction l with
  | nil => intro m; rfl
  | cons p rest ih => intro m; simp [runningMaxFrom, ih]

/-- `runningMax` has the length of its input. -/
theorem runningMax_length (l : List ℚ) : (runningMax l).length = l.length := by
  cases l with
  | nil => rfl
  | cons p rest => simp [runningMax, runningMaxFrom_length]

/-- A drawdown series has the length of its curve. -/
theorem drawdownOf_length (l : List ℚ) : (drawdownOf l).length = l.length := by
  simp [drawdownOf, runningMax_length]

/-- On a non-decreasing tail, the running maximum is the tail itself. -/
theorem runningMaxFrom_of_chain :
    ∀ (l : List ℚ) (m : ℚ), List.Chain (· ≤ ·) m l → runningMaxFrom m l = l := by
  intro l
  induction l with
  | nil => intro m _; rfl
  | cons p rest ih =>
      intro m hchain
      rcases List.chain_cons.mp hchain with ⟨hmp, hrest⟩
      simp only [runningMaxFrom, max_eq_right hmp]
      rw [ih p hrest]

/-- On a non-decreasing curve, the running maximum is the curve itself. -/
theorem runningMax_of_chain' (l : List ℚ) (h : List.Chain' (· ≤ ·) l) : runningMax l = l := by
  cases l with
  | nil => rfl
  | cons p rest =>
      simp only [runningMax]
      rw [runningMaxFrom_of_chain rest p h]

/-- A run whose series minimum is `m` with `|m| ≠ 0` succeeds and returns
the loop output computed with `max_loss = |m|`. -/
theorem calculate_scaling_ok (data : List (ℤ × ℚ)) (c r m : ℚ)
    (hmin : seriesMin (data.map Prod.snd) = some m) (h0 : |m| ≠ 0) :
    calculate_scaling data c r = Except.ok (scalingLoop |m| r c c data) := by
  simp only [calculate_scaling, hmin]
  rw [if_neg h0]

/-- Inversion on a successful run: it is either the empty run or the loop
output with `max_loss = |seriesMin|`. -/
theorem calculate_scaling_ok_inv (data : List (ℤ × ℚ)) (c r : ℚ) (res : List ScaledRow)
    (hok : calculate_scaling data c r = Except.ok res) :
    res = [] ∨ ∃ m, seriesMin (data.map Prod.snd) = some m ∧ |m| ≠ 0 ∧
      res = scalingLoop |m| r c c data := by
  cases hmin : seriesMin (data.map Prod.snd) with
  | none =>
      simp only [calculate_scaling, hmin] at hok
      exact Or.inl (Except.ok.inj hok).symm
  | some m =>
      simp only [calculate_scaling, hmin] at hok
      by_cases h0 : |m| = 0
      · rw [if_pos h0] at hok
        exact absurd hok (fun hh => Except.noConfusion hh)
      · rw [if_neg h0] at hok
        exact Or.inr ⟨m, rfl, h0, (Except.ok.inj hok).symm⟩

/-- Claim C1: for every non-empty input series with `max_loss ≠ 0`,
`scale` succeeds and the result satisfies the full day-by-day recurrence:
the first starting balance is the starting capital, each day's position
size is `⌊starting_balance * risk / max_loss⌋`, its scaled P&L is
`pnl * position_size`, its ending balance is `starting_balance +
scaled_pnl`, its cumulative P&L is `ending_balance - starting_capital`,
and each following day starts from the previous ending balance; the rows
carry the input days in order. -/
theorem c1_scaling_recurrence (data : List (ℤ × ℚ)) (c r L : ℚ)
    (_hne : data ≠ []) (hL : maxLossOf data = some L) (hL0 : L ≠ 0) :
    ∃ res, calculate_scaling data c r = Except.ok res ∧
      res.map (fun row => (row.date, row.pnl)) = data ∧
      (∀ h0 : 0 < res.length, (res.get ⟨0, h0⟩).startingBR = c) ∧
      (∀ (i : ℕ) (hi : i < res.length),
        (res.get ⟨i, hi⟩).positionSize = ⌊((res.get ⟨i, hi⟩).startingBR * r) / L⌋ ∧
        (res.get ⟨i, hi⟩).scaledPnl =
          (res.get ⟨i, hi⟩).pnl * (((res.get ⟨i, hi⟩).positionSize : ℤ) : ℚ) ∧
        (res.get ⟨i, hi⟩).endingBR = (res.get ⟨i, hi⟩).startingBR + (res.get ⟨i, hi⟩).scaledPnl ∧
        (res.get ⟨i, hi⟩).cumulativePnl = (res.get ⟨i, hi⟩).endingBR - c) ∧
      (∀ (i : ℕ) (hi : i + 1 < res.length),
        (res.get ⟨i + 1, hi⟩).startingBR = (res.get ⟨i, Nat.lt_of_succ_lt hi⟩).endingBR) := by
  obtain ⟨m, hmin, habs⟩ := Option.map_eq_some'.mp hL
  have h0 : |m| ≠ 0 := by rw [habs]; exact hL0
  refine ⟨scalingLoop |m| r c c data, calculate_scaling_ok data c r m hmin h0, ?_, ?_, ?_, ?_⟩
  · exact scalingLoop_map_datePnl |m| r c data c
  · intro hlen; exact scalingLoop_get_zero |m| r c data c hlen
  · intro i hi
    rw [← habs]
    exact scalingLoop_mem_spec |m| r c data c _ (List.get_mem _ i hi)
  · intro i hi
    have hch := scalingLoop_chain |m| r c data c
    have hlt : i < (scalingLoop |m| r c c data).length - 1 := by omega
    exact (List.chain'_iff_get.mp hch i hlt).symm ▸ rfl

/-- Witness for C1 at the spec's concrete scenario 1. -/
theorem c1_scaling_recurrence_witness :
    ∃ res, calculate_scaling [(0, 10), (1, -5), (2, 10)] 100 (1/10) = Except.ok res ∧
      res.map (fun row => (row.date, row.pnl)) = [(0, 10), (1, -5), (2, 10)] ∧
      (∀ h0 : 0 < res.length, (res.get ⟨0, h0⟩).startingBR = 100) ∧
      (∀ (i : ℕ) (hi : i < res.length),
        (res.get ⟨i, hi⟩).positionSize = ⌊((res.get ⟨i, hi⟩).startingBR * (1/10)) / 5⌋ ∧
        (res.get ⟨i, hi⟩).scaledPnl =
          (res.get ⟨i, hi⟩).pnl * (((res.get ⟨i, hi⟩).positionSize : ℤ) : ℚ) ∧
        (res.get ⟨i, hi⟩).endingBR = (res.get ⟨i, hi⟩).startingBR + (res.get ⟨i, hi⟩).scaledPnl ∧
        (res.get ⟨i, hi⟩).cumulativePnl = (res.get ⟨i, hi⟩).endingBR - 100) ∧
      (∀ (i : ℕ) (hi : i + 1 < res.length),
        (res.get ⟨i + 1, hi⟩).startingBR = (res.get ⟨i, Nat.lt_of_succ_lt hi⟩).endingBR) :=
  c1_scaling_recurrence [(0, 10), (1, -5), (2, 10)] 100 (1/10) 5 (by simp)
    (by norm_num [maxLossOf, seriesMin, min_def]) (by norm_num)

/-- Claim C2 counterexample: on the all-positive series `[(d1,+1),(d2,+2)]`
the run does NOT fail with `DegenerateRisk` (the claim asserts it must):
`max_loss = |min| = 1 ≠ 0` and scaling proceeds. -/
theorem c2_counterexample :
    calculate_scaling [(0, 1), (1, 2)] 100 (1/10) ≠
      Except.error ScalingError.degenerateRisk := by
  have h : calculate_scaling [(0, 1), (1, 2)] 100 (1/10) =
      Except.ok [⟨0, 1, 100, 10, 10, 110, 10⟩, ⟨1, 2, 110, 11, 22, 132, 32⟩] := by
    norm_num [calculate_scaling, seriesMin, scalingLoop, min_def]
  rw [h]
  exact fun hh => Except.noConfusion hh

/-- Claim C2 as amended: `scale` fails with `DegenerateRisk` exactly when
the series minimum is `0` (equivalently `abs(min) = 0`), i.e. all P&L
values are `≥ 0` AND some value equals `0`; an all-positive series such as
`[(d1,+1),(d2,+2)]` has `max_loss = 1` and succeeds. -/
theorem c2_degenerate_iff :
    (∀ (data : List (ℤ × ℚ)) (c r : ℚ),
        calculate_scaling data c r = Except.error ScalingError.degenerateRisk ↔
          seriesMin (data.map Prod.snd) = some 0) ∧
    calculate_scaling [(0, 1), (1, 2)] 100 (1/10) =
      Except.ok [⟨0, 1, 100, 10, 10, 110, 10⟩, ⟨1, 2, 110, 11, 22, 132, 32⟩] := by
  constructor
  · intro data c r
    cases hmin : seriesMin (data.map Prod.snd) with
    | none =>
        simp only [calculate_scaling, hmin]
        exact iff_of_false (fun hh => Except.noConfusion hh) (fun hh => Option.noConfusion hh)
    | some m =>
        simp only [calculate_scaling, hmin]
        by_cases h0 : |m| = 0
        · rw [if_pos h0]
          simp [abs_eq_zero.mp h0]
        · rw [if_neg h0]
          constructor
          · intro hh; exact absurd hh (fun hc => Except.noConfusion hc)
          · intro hh
            rw [Option.some.inj hh] at h0
            exact absurd abs_zero h0
  · norm_num [calculate_scaling, seriesMin, scalingLoop, min_def]

/-- Claim C3 counterexample: on the empty series, `scale` returns an empty
result frame (because the pandas min is NaN and `NaN == 0` is false);
it does not fail at all, with `InvalidInput` or otherwise. -/
theorem c3_counterexample : calculate_scaling [] 100 (1/10) = Except.ok [] := rfl

/-- Claim C3 as amended: for the empty input series and any parameters,
`calculate_scaling` returns an empty scaled series rather than failing with
`InvalidInput`; the empty-input rejection lives in the CSV-parsing layer,
not in `calculate_scaling`. -/
theorem c3_empty_returns_empty (c r : ℚ) :
    calculate_scaling [] c r = Except.ok [] ∧
    calculate_scaling [] c r ≠ Except.error ScalingError.invalidInput := by
  refine ⟨rfl, ?_⟩
  intro h
  rw [show calculate_scaling [] c r = Except.ok [] from rfl] at h
  exact Except.noConfusion h

/-- Claim C4: within one run, `max_loss = abs(min(pnl))` is computed once
from the input series, and every row's position size uses that same
constant, independently of how capital compounds. -/
theorem c4_max_loss_fixed (data : List (ℤ × ℚ)) (c r m : ℚ)
    (hmin : seriesMin (data.map Prod.snd) = some m) (h0 : |m| ≠ 0) :
    maxLossOf data = some |m| ∧
    ∃ res, calculate_scaling data c r = Except.ok res ∧
      ∀ row ∈ res, row.positionSize = ⌊(row.startingBR * r) / |m|⌋ := by
  refine ⟨by simp [maxLossOf, hmin], scalingLoop |m| r c c data,
    calculate_scaling_ok data c r m hmin h0, ?_⟩
  intro row hrow
  exact (scalingLoop_mem_spec |m| r c data c row hrow).1

/-- Witness for C4 at the spec's concrete scenario 1. -/
theorem c4_max_loss_fixed_witness :
    maxLossOf [(0, 10), (1, -5), (2, 10)] = some |(-5 : ℚ)| ∧
    ∃ res, calculate_scaling [(0, 10), (1, -5), (2, 10)] 100 (1/10) = Except.ok res ∧
      ∀ row ∈ res, row.positionSize = ⌊(row.startingBR * (1/10)) / |(-5 : ℚ)|⌋ :=
  c4_max_loss_fixed [(0, 10), (1, -5), (2, 10)] 100 (1/10) (-5)
    (by norm_num [seriesMin, min_def]) (by norm_num)

/-- Claim C5: on every successful non-empty run, the scaled P&L column sums
to the last day's ending balance minus the starting capital. -/
theorem c5_sum_scaled_pnl (data : List (ℤ × ℚ)) (c r : ℚ) (res : List ScaledRow)
    (hok : calculate_scaling data c r = Except.ok res) (hne : res ≠ []) :
    (res.map ScaledRow.scaledPnl).sum = (res.getLast hne).endingBR - c := by
  rcases calculate_scaling_ok_inv data c r res hok with hnil | ⟨m, hmin, h0, hres⟩
  · exact absurd hnil hne
  · subst hres
    rw [scalingLoop_last |m| r c data c hne]
    ring

/-- Witness for C5 at the spec's concrete scenario 1. -/
theorem c5_sum_scaled_pnl_witness :
    (([⟨0, 10, 100, 2, 20, 120, 20⟩,
       ⟨1, -5, 120, 2, -10, 110, 10⟩,
       ⟨2, 10, 110, 2, 20, 130, 30⟩] : List ScaledRow).map ScaledRow.scaledPnl).sum =
      (([⟨0, 10, 100, 2, 20, 120, 20⟩,
         ⟨1, -5, 120, 2, -10, 110, 10⟩,
         ⟨2, 10, 110, 2, 20, 130, 30⟩] : List ScaledRow).getLast
        (List.cons_ne_nil _ _)).endingBR - 100 :=
  c5_sum_scaled_pnl [(0, 10), (1, -5), (2, 10)] 100 (1/10) _
    (by norm_num [calculate_scaling, seriesMin, scalingLoop, min_def])
    (List.cons_ne_nil _ _)

/-- Claim C9: on any day where `(starting_balance * risk) / max_loss` is
negative, the position size is its mathematical floor — a negative
integer, not a truncation toward zero — and the recurrence consumes it
unclamped. -/
theorem c9_negative_floor (data : List (ℤ × ℚ)) (c r L : ℚ) (res : List ScaledRow)
    (hL : maxLossOf data = some L) (_hL0 : L ≠ 0)
    (hok : calculate_scaling data c r = Except.ok res)
    (i : ℕ) (hi : i < res.length)
    (hneg : ((res.get ⟨i, hi⟩).startingBR * r) / L < 0) :
    (res.get ⟨i, hi⟩).positionSize = ⌊((res.get ⟨i, hi⟩).startingBR * r) / L⌋ ∧
    (res.get ⟨i, hi⟩).positionSize < 0 ∧
    (res.get ⟨i, hi⟩).scaledPnl =
      (res.get ⟨i, hi⟩).pnl * (((res.get ⟨i, hi⟩).positionSize : ℤ) : ℚ) ∧
    (res.get ⟨i, hi⟩).endingBR = (res.get ⟨i, hi⟩).startingBR + (res.get ⟨i, hi⟩).scaledPnl := by
  obtain ⟨m, hmin, habs⟩ := Option.map_eq_some'.mp hL
  rcases calculate_scaling_ok_inv data c r res hok with hnil | ⟨m', hmin', h0', hres⟩
  · subst hnil; exact absurd hi (by simp)
  · rw [hmin] at hmin'
    injection hmin' with hm
    subst hm
    subst hres
    have hspec := scalingLoop_mem_spec |m| r c data c _ (List.get_mem _ i hi)
    rw [← habs]
    rw [← habs] at hneg
    refine ⟨hspec.1, ?_, hspec.2.1, hspec.2.2.1⟩
    rw [hspec.1]
    exact Int.floor_lt.mpr (by exact_mod_cast hneg)

/-- `cumsumFrom` preserves length. -/
theorem cumsumFrom_length : ∀ (l : List ℚ) (acc : ℚ), (cumsumFrom acc l).length = l.length := by
  intro l
  induction l with
  | nil => intro acc; rfl
  | cons p rest ih => intro acc; simp [cumsumFrom, ih]

/-- `cumsum` of a non-empty series is non-empty. -/
theorem cumsum_ne_nil (l : List ℚ) (h : l ≠ []) : cumsum l ≠ [] := by
  intro hnil
  have hlen := congrArg List.length hnil
  rw [cumsum, cumsumFrom_length] at hlen
  exact h (List.length_eq_zero.mp hlen)

/-- The drawdown series of a non-empty curve is non-empty. -/
theorem drawdownOf_ne_nil (l : List ℚ) (h : l ≠ []) : drawdownOf l ≠ [] := by
  intro hnil
  have hlen := congrArg List.length hnil
  rw [drawdownOf_length] at hlen
  exact h (List.length_eq_zero.mp hlen)

/-- A non-empty curve has a maximum drawdown, and it is non-positive. -/
theorem seriesMin_drawdown_exists (l : List ℚ) (h : l ≠ []) :
    ∃ d, seriesMin (drawdownOf l) = some d ∧ d ≤ 0 := by
  obtain ⟨d, hd⟩ := seriesMin_of_ne_nil _ (drawdownOf_ne_nil l h)
  exact ⟨d, hd, drawdownOf_nonpos l d (seriesMin_mem _ d hd)⟩

/-- On a non-decreasing non-empty curve the maximum drawdown is zero. -/
theorem drawdown_zero_of_chain (l : List ℚ) (h : l ≠ []) (hch : List.Chain' (· ≤ ·) l) :
    seriesMin (drawdownOf l) = some 0 := by
  rw [drawdownOf, runningMax_of_chain' l hch, List.zipWith_same]
  apply seriesMin_all_zero
  · simp [h]
  · intro x hx
    obtain ⟨a, _, rfl⟩ := List.mem_map.mp hx
    exact sub_self a

/-- Claim C6: for any non-empty series, the original max drawdown (minimum
of cumulative sum minus its running maximum) exists and is `≤ 0`, equals
`0` when the cumulative curve is non-decreasing; the scaled max drawdown
(computed on the ending-balance curve) is likewise `≤ 0`; and on the
series `[+10,+5,-20,+5]` the original max drawdown is `-20`. -/
theorem c6_max_drawdown (pnl bal : List ℚ) (hpnl : pnl ≠ []) (hbal : bal ≠ []) :
    (∃ d, original_max_drawdown pnl = some d ∧ d ≤ 0 ∧
      (List.Chain' (· ≤ ·) (cumsum pnl) → d = 0)) ∧
    (∃ e, scaled_max_drawdown bal = some e ∧ e ≤ 0) ∧
    original_max_drawdown [10, 5, -20, 5] = some (-20) := by
  refine ⟨?_, ?_, ?_⟩
  · obtain ⟨d, hd, hd0⟩ := seriesMin_drawdown_exists (cumsum pnl) (cumsum_ne_nil pnl hpnl)
    refine ⟨d, hd, hd0, ?_⟩
    intro hch
    have h0 := drawdown_zero_of_chain (cumsum pnl) (cumsum_ne_nil pnl hpnl) hch
    exact Option.some.inj (hd.symm.trans h0)
  · obtain ⟨e, he, he0⟩ := seriesMin_drawdown_exists bal hbal
    exact ⟨e, he, he0⟩
  · norm_num [original_max_drawdown, drawdownOf, cumsum, cumsumFrom, runningMax,
      runningMaxFrom, seriesMin, min_def, max_def]

/-- Witness for C6 at the spec's concrete scenario 4. -/
theorem c6_max_drawdown_witness :
    (∃ d, original_max_drawdown [10, 5, -20, 5] = some d ∧ d ≤ 0 ∧
      (List.Chain' (· ≤ ·) (cumsum [10, 5, -20, 5]) → d = 0)) ∧
    (∃ e, scaled_max_drawdown [120, 110] = some e ∧ e ≤ 0) ∧
    original_max_drawdown [10, 5, -20, 5] = some (-20) :=
  c6_max_drawdown [10, 5, -20, 5] [120, 110]
    (List.cons_ne_nil _ _) (List.cons_ne_nil _ _)

/-- The week buckets contain no duplicates. -/
theorem weekKeys_nodup (records : List (ℤ × ℚ)) : (weekKeys records).Nodup :=
  List.nodup_dedup _

/-- The week buckets are strictly ascending. -/
theorem weekKeys_sorted (records : List (ℤ × ℚ)) :
    List.Sorted (· < ·) (weekKeys records) := by
  have hs : List.Sorted (· ≤ ·)
      ((records.map (fun r => weekStart r.1)).insertionSort (· ≤ ·)) :=
    List.sorted_insertionSort _ _
  have hsub := List.dedup_sublist ((records.map (fun r => weekStart r.1)).insertionSort (· ≤ ·))
  exact List.Sorted.lt_of_le (List.Pairwise.sublist hsub hs) (weekKeys_nodup records)

/-- A value is a week bucket exactly when some record falls in it. -/
theorem weekKeys_mem (records : List (ℤ × ℚ)) (k : ℤ) :
    k ∈ weekKeys records ↔ ∃ r ∈ records, weekStart r.1 = k := by
  unfold weekKeys
  rw [List.mem_dedup, (List.perm_insertionSort (· ≤ ·) _).mem_iff]
  simp [List.mem_map]

/-- Summing the per-bucket fiber sums over a duplicate-free key list that
covers every record gives the total sum. -/
theorem sum_fiberwise :
    ∀ (keys : List ℤ) (l : List (ℤ × ℚ)), keys.Nodup →
      (∀ r ∈ l, weekStart r.1 ∈ keys) →
      (keys.map
        (fun k => ((l.filter (fun r => weekStart r.1 == k)).map Prod.snd).sum)).sum =
        (l.map Prod.snd).sum := by
  intro keys
  induction keys with
  | nil =>
      intro l _ hall
      cases l with
      | nil => simp
      | cons a l' => exact absurd (hall a (List.mem_cons_self a l')) (List.not_mem_nil _)
  | cons k ks ih =>
      intro l hnd hall
      have hperm := (List.filter_append_perm (fun r => weekStart r.1 == k) l).map Prod.snd
      have hsplit : (l.map Prod.snd).sum =
          ((l.filter (fun r => weekStart r.1 == k)).map Prod.snd).sum +
          ((l.filter (fun r => !(weekStart r.1 == k))).map Prod.snd).sum := by
        rw [← hperm.sum_eq, List.map_append, List.sum_append]
      have hknotks : k ∉ ks := (List.nodup_cons.mp hnd).1
      have hall' : ∀ r ∈ l.filter (fun r => !(weekStart r.1 == k)), weekStart r.1 ∈ ks := by
        intro r hr
        rw [List.mem_filter] at hr
        rcases List.mem_cons.mp (hall r hr.1) with h1 | h2
        · exfalso
          have := hr.2
          rw [h1] at this
          simp at this
        · exact h2
      have htail : ∀ k' ∈ ks,
          ((l.filter (fun r => !(weekStart r.1 == k))).filter
            (fun r => weekStart r.1 == k')) =
          l.filter (fun r => weekStart r.1 == k') := by
        intro k' hk'
        rw [List.filter_filter]
        apply List.filter_congr
        intro r _
        by_cases heq : weekStart r.1 = k'
        · have hkk : ¬ k' = k := fun hc => hknotks (hc ▸ hk')
          have hne : ¬ weekStart r.1 = k := by rw [heq]; exact hkk
          simp [heq, hne, hkk]
        · simp [heq]
      rw [hsplit]
      simp only [List.map_cons, List.sum_cons]
      congr 1
      rw [← ih (l.filter (fun r => !(weekStart r.1 == k))) (List.nodup_cons.mp hnd).2 hall']
      exact congrArg List.sum (List.map_congr_left (fun k' hk' => by rw [htail k' hk']))

/-- Claim C7: weekly aggregation partitions the days exactly — the weekly
sums add up to the series total, the emitted rows are strictly ascending
in `week_start` (one row per distinct non-empty week), and every emitted
week contains at least one trading day (empty weeks are omitted). -/
theorem c7_weekly_partition (records : List (ℤ × ℚ)) :
    ((groupByWeekSum records).map Prod.snd).sum = (records.map Prod.snd).sum ∧
    List.Sorted (· < ·) ((groupByWeekSum records).map Prod.fst) ∧
    ∀ w ∈ (groupByWeekSum records).map Prod.fst, ∃ r ∈ records, weekStart r.1 = w := by
  refine ⟨?_, ?_, ?_⟩
  · rw [groupByWeekSum, List.map_map]
    have hmc : ((fun p => Prod.snd p) ∘
        (fun k => (k, ((records.filter (fun r => weekStart r.1 == k)).map Prod.snd).sum))) =
        (fun k => ((records.filter (fun r => weekStart r.1 == k)).map Prod.snd).sum) := rfl
    rw [hmc]
    exact sum_fiberwise (weekKeys records) records (weekKeys_nodup records)
      (fun r hr => (weekKeys_mem records _).mpr ⟨r, hr, rfl⟩)
  · rw [groupByWeekSum, List.map_map]
    have hmc : ((fun p => Prod.fst p) ∘
        (fun k => (k, ((records.filter (fun r => weekStart r.1 == k)).map Prod.snd).sum))) =
        (fun k => k) := rfl
    rw [hmc, List.map_id']
    exact weekKeys_sorted records
  · intro w hw
    rw [groupByWeekSum, List.map_map] at hw
    have hmc : ((fun p => Prod.fst p) ∘
        (fun k => (k, ((records.filter (fun r => weekStart r.1 == k)).map Prod.snd).sum))) =
        (fun k => k) := rfl
    rw [hmc, List.map_id'] at hw
    exact (weekKeys_mem records w).mp hw

/-- Witness for C9: with capital 9, risk 2 and series `[-4, -3]`
(`max_loss = 4`), day 2 starts at balance `-7`; the sizing quantity is
`-7/2` and the position size is `⌊-7/2⌋ = -4` (truncation toward zero
would give `-2`), which the recurrence consumes unclamped. -/
theorem c9_negative_floor_witness :
    ((([⟨0, -4, 9, 4, -16, -7, -16⟩, ⟨1, -3, -7, -4, 12, 5, -4⟩] :
        List ScaledRow).get ⟨1, by simp⟩).positionSize =
      ⌊((([⟨0, -4, 9, 4, -16, -7, -16⟩, ⟨1, -3, -7, -4, 12, 5, -4⟩] :
        List ScaledRow).get ⟨1, by simp⟩).startingBR * 2) / 4⌋) ∧
    (([⟨0, -4, 9, 4, -16, -7, -16⟩, ⟨1, -3, -7, -4, 12, 5, -4⟩] :
        List ScaledRow).get ⟨1, by simp⟩).positionSize < 0 ∧
    ((([⟨0, -4, 9, 4, -16, -7, -16⟩, ⟨1, -3, -7, -4, 12, 5, -4⟩] :
        List ScaledRow).get ⟨1, by simp⟩).scaledPnl =
      (([⟨0, -4, 9, 4, -16, -7, -16⟩, ⟨1, -3, -7, -4, 12, 5, -4⟩] :
        List ScaledRow).get ⟨1, by simp⟩).pnl *
        ((((([⟨0, -4, 9, 4, -16, -7, -16⟩, ⟨1, -3, -7, -4, 12, 5, -4⟩] :
          List ScaledRow).get ⟨1, by simp⟩).positionSize : ℤ)) : ℚ)) ∧
    (([⟨0, -4, 9, 4, -16, -7, -16⟩, ⟨1, -3, -7, -4, 12, 5, -4⟩] :
        List ScaledRow).get ⟨1, by simp⟩).endingBR =
      (([⟨0, -4, 9, 4, -16, -7, -16⟩, ⟨1, -3, -7, -4, 12, 5, -4⟩] :
        List ScaledRow).get ⟨1, by simp⟩).startingBR +
      (([⟨0, -4, 9, 4, -16, -7, -16⟩, ⟨1, -3, -7, -4, 12, 5, -4⟩] :
        List ScaledRow).get ⟨1, by simp⟩).scaledPnl :=
  c9_negative_floor [(0, -4), (1, -3)] 9 2 4
    [⟨0, -4, 9, 4, -16, -7, -16⟩, ⟨1, -3, -7, -4, 12, 5, -4⟩]
    (by norm_num [maxLossOf, seriesMin, min_def]) (by norm_num)
    (by norm_num [calculate_scaling, seriesMin, scalingLoop, min_def])
    1 (by simp) (by norm_num [List.get])

/-- Claim C10: `get_weekly_data` returns an empty table (without raising)
whenever `data_type` is neither `'original'` nor `'scaled'`, and whenever
the requested series has not been computed yet. -/
theorem c10_weekly_dispatch (s : CalcState) (dataType : String) :
    (dataType ≠ "original" → dataType ≠ "scaled" → get_weekly_data s dataType = []) ∧
    (dataType = "original" → s.originalData = none → get_weekly_data s dataType = []) ∧
    (dataType = "scaled" → s.scaledData = none → get_weekly_data s dataType = []) := by
  refine ⟨?_, ?_, ?_⟩ <;>
    · intro h1 h2
      unfold get_weekly_data
      split <;> simp_all

/-- Witness for C10: a fresh calculator returns an empty weekly table for
an unknown data type and for both series before any computation. -/
theorem c10_weekly_dispatch_witness :
    get_weekly_data initState "weekly" = [] ∧
    get_weekly_data initState "original" = [] ∧
    get_weekly_data initState "scaled" = [] :=
  ⟨(c10_weekly_dispatch initState "weekly").1 (by decide) (by decide),
   (c10_weekly_dispatch initState "original").2.1 rfl rfl,
   (c10_weekly_dispatch initState "scaled").2.2 rfl rfl⟩

/-- Claim C8 (code bug): after a successful run on one series, a second
run on a degenerate series fails with `DegenerateRisk` — yet because
`calculate_scaling` assigns `original_data` and `max_loss` before the
degenerate check, `calculate_performance_metrics` then returns a report
(not `{}`) whose original-series section is computed from the FAILED
run's inputs (`total_pnl = 1`, `total_trades = 2`, `max_loss_used = 0`)
while its scaled section still reflects the earlier run (`total_pnl = 10`,
`final_capital = 110`). -/
theorem c8_metrics_after_failed_run :
    (runScaling ((runScaling initState [(0, 10), (1, -5)] 100 (1/10)).1)
        [(2, 1), (3, 0)] 100 (1/10)).2 = Except.error ScalingError.degenerateRisk ∧
    ∃ rep,
      calculate_performance_metrics
          ((runScaling ((runScaling initState [(0, 10), (1, -5)] 100 (1/10)).1)
              [(2, 1), (3, 0)] 100 (1/10)).1) = some rep ∧
      rep.originalTotalPnl = 1 ∧
      rep.originalTotalTrades = 2 ∧
      rep.maxLossUsed = some 0 ∧
      rep.scaledTotalPnl = 10 ∧
      rep.scaledFinalCapital = some 110 := by
  have hs1 : (runScaling initState [(0, 10), (1, -5)] 100 (1/10)).1 =
      { originalData := some [(0, 10), (1, -5)],
        scaledData := some [⟨0, 10, 100, 2, 20, 120, 20⟩, ⟨1, -5, 120, 2, -10, 110, 10⟩],
        maxLoss := some 5, startingCapital := some 100, riskPercentage := some (1/10) } := by
    norm_num [runScaling, calculate_scaling, seriesMin, scalingLoop, maxLossOf, initState,
      min_def]
  rw [hs1]
  have hs2 : runScaling
      { originalData := some [(0, 10), (1, -5)],
        scaledData := some [⟨0, 10, 100, 2, 20, 120, 20⟩, ⟨1, -5, 120, 2, -10, 110, 10⟩],
        maxLoss := some 5, startingCapital := some 100, riskPercentage := some (1/10) }
      [(2, 1), (3, 0)] 100 (1/10) =
      ({ originalData := some [(2, 1), (3, 0)],
         scaledData := some [⟨0, 10, 100, 2, 20, 120, 20⟩, ⟨1, -5, 120, 2, -10, 110, 10⟩],
         maxLoss := some 0, startingCapital := some 100, riskPercentage := some (1/10) },
       Except.error ScalingError.degenerateRisk) := by
    norm_num [runScaling, calculate_scaling, seriesMin, maxLossOf, min_def]
  rw [hs2]
  have hm : calculate_performance_metrics
      { originalData := some [(2, 1), (3, 0)],
        scaledData := some [⟨0, 10, 100, 2, 20, 120, 20⟩, ⟨1, -5, 120, 2, -10, 110, 10⟩],
        maxLoss := some 0, startingCapital := some 100, riskPercentage := some (1/10) } =
      some
        { originalTotalPnl := 1, originalWinRate := 1/2, originalAvgWin := 1,
          originalAvgLoss := 0, originalMaxDrawdown := some 0, originalTotalTrades := 2,
          scaledTotalPnl := 10, scaledFinalCapital := some 110, scaledWinRate := 1/2,
          scaledMaxDrawdown := some (-10), scaledTotalTrades := 2, maxLossUsed := some 0,
          riskPercentageUsed := some (1/10), maxPositionSize := some 2,
          minPositionSize := some 2 } := by
    norm_num [calculate_performance_metrics, original_max_drawdown, scaled_max_drawdown,
      drawdownOf, cumsum, cumsumFrom, runningMax, runningMaxFrom, seriesMin, seriesMax,
      min_def, max_def, List.countP_cons, List.countP_nil, List.filter_cons, List.filter_nil]
  exact ⟨rfl, _, hm, rfl, rfl, rfl, rfl, rfl⟩
